import Mathlib

/-!
Verification of the starkbot-cli streaming / dashboard core.

The TypeScript source is shallowly embedded: JS strings are modeled as
`List Char` (the `TextDecoder` with stream mode preserves characters across
chunk boundaries, so the byte level is abstracted to characters), JS `Map`s
as insertion-ordered association lists, and the external `JSON.parse` as an
oracle function of type `List Char → Option _` (parse failure, i.e. a thrown
exception that the source catches, is `none`).
-/

namespace Starkbot

/-- Shorthand: the character list of a string literal. -/
def cs (s : String) : List Char := s.data

/-! ## Frame decoder
Embeds the buffer loop of `GatewayClient.chatStream` (gateway-client.ts) and
of `startSseListener` (modules.ts): `while ((pos = buffer.indexOf("\n\n")) !== -1)
{ frame = buffer.slice(0, pos); buffer = buffer.slice(pos + 2); ... }`. -/

/-- `buffer.indexOf("\n\n")`: index of the first occurrence of two consecutive
newline characters, `none` when there is none (JS `-1`). -/
def findDelim : List Char → Option Nat
  | [] => none
  | a :: rest =>
    match rest with
    | [] => none
    | b :: _ =>
      if a = '\n' ∧ b = '\n' then some 0
      else (findDelim rest).map (· + 1)

/-- The `while (indexOf ≠ -1)` frame-extraction loop, with an explicit fuel
bound (the buffer shrinks by at least two characters per iteration, so
`buf.length` is enough fuel; `extract` below instantiates it). -/
def extractFuel : Nat → List Char → List (List Char) × List Char
  | 0, buf => ([], buf)
  | n + 1, buf =>
    match findDelim buf with
    | none => ([], buf)
    | some i =>
      let p := extractFuel n (buf.drop (i + 2))
      (buf.take i :: p.1, p.2)

/-- Extract all complete frames from the accumulation buffer; returns the
frames in order and the remaining (delimiter-free) buffer. -/
def extract (buf : List Char) : List (List Char) × List Char :=
  extractFuel buf.length buf

/-- The read loop: each network chunk is appended to the buffer and every
complete frame is extracted before the next read. Returns all frames emitted
and the final buffer. -/
def feedChunks : List Char → List (List Char) → List (List Char) × List Char
  | buf, [] => ([], buf)
  | buf, c :: cschunks =>
    let p := extract (buf ++ c)
    let q := feedChunks p.2 cschunks
    (p.1 ++ q.1, q.2)

/-! ## Event layer
`frame.split("\n")` and the per-line handling of `chatStream`
(gateway-client.ts lines 174–186) and `startSseListener` (modules.ts lines
180–204).  `JSON.parse` is an oracle argument `parse`; a caught parse
exception is `none`. -/

/-- `frame.split("\n")` (JS `String.split` with a string separator keeps
empty pieces; `"".split("\n")` is `[""]`). -/
def splitLines : List Char → List (List Char)
  | [] => [[]]
  | c :: rest =>
    let r := splitLines rest
    if c = '\n' then [] :: r
    else (c :: r.headD []) :: r.tail

/-- The `SseEvent` interface of gateway-client.ts (the fields the client
reads; `parameters`, `success`, `duration_ms`, `error` are never consulted
by the modeled code and are omitted). -/
structure SseEv where
  type : List Char
  content : Option (List Char)
  tool_name : Option (List Char)
  label : Option (List Char)
  agent_subtype : Option (List Char)
  task_name : Option (List Char)
deriving DecidableEq

/-- An event with only a `type` field (the other fields absent). -/
def mkEv (t : List Char) : SseEv := ⟨t, none, none, none, none, none⟩

/-- `"data: "` — the data-line marker, `line.startsWith("data: ")`, payload is
`line.slice(6)`. -/
def dataMark : List Char := cs "data: "

/-- `"event: "` — the event-line marker of the SSE listener, name is
`line.slice(7).trim()`. -/
def eventMark : List Char := cs "event: "

def doneTy : List Char := cs "done"

def isDoneEv (e : SseEv) : Bool := e.type = doneTy

/-- Inner loop of `chatStream` over one frame's lines: each `data: ` line is
parsed on its own; a parsed event is dispatched, and a `done`-typed event
makes the whole stream consumption return (`Bool` result = early return). -/
def chatFrameStep (parse : List Char → Option SseEv) : List (List Char) → List SseEv × Bool
  | [] => ([], false)
  | line :: rest =>
    if dataMark.isPrefixOf line then
      match parse (line.drop 6) with
      | some ev =>
        if isDoneEv ev then ([ev], true)
        else
          let p := chatFrameStep parse rest
          (ev :: p.1, p.2)
      | none => chatFrameStep parse rest
    else chatFrameStep parse rest

/-- `chatStream`'s dispatch over successive frames: frames are handled in
order and a `done` event aborts the remaining frames. -/
def chatFramesEvents (parse : List Char → Option SseEv) : List (List (List Char)) → List SseEv
  | [] => []
  | f :: fs =>
    let p := chatFrameStep parse f
    if p.2 then p.1 else p.1 ++ chatFramesEvents parse fs

/-- All events `chatStream` dispatches for a whole buffered input. -/
def chatStreamEvents (parse : List Char → Option SseEv) (s : List Char) : List SseEv :=
  chatFramesEvents parse ((extract s).1.map splitLines)

/-- The events of one frame ignoring the early `done` return: one parse per
`data: ` line. -/
def frameDataEvents (parse : List Char → Option SseEv) (lines : List (List Char)) : List SseEv :=
  lines.filterMap (fun l => if dataMark.isPrefixOf l then parse (l.drop 6) else none)

/-- All parseable data-line events of the input, in order, with no `done`
truncation. -/
def streamDataEvents (parse : List Char → Option SseEv) (s : List Char) : List SseEv :=
  (((extract s).1.map splitLines).map (frameDataEvents parse)).flatten

/-- Formalization of the spec's stopping rule: the prefix of the event list
up to and including the first `done`-typed event. -/
def takeThroughDone : List SseEv → List SseEv
  | [] => []
  | e :: rest => if isDoneEv e then [e] else e :: takeThroughDone rest

/-! ## SSE push-update listener (startSseListener, modules.ts) -/

/-- JS whitespace test for `String.trim` (the characters that can actually
occur here). -/
def isWsChar (c : Char) : Bool := c = ' ' || c = '\t' || c = '\n' || c = '\r'

/-- `String.trim`. -/
def jsTrim (l : List Char) : List Char :=
  ((l.dropWhile isWsChar).reverse.dropWhile isWsChar).reverse

/-- The final value of `eventName` after the line loop: every `event: ` line
overwrites it (`""` when none occurs). -/
def eventNameOf (lines : List (List Char)) : List Char :=
  lines.foldl (fun acc l => if eventMark.isPrefixOf l then jsTrim (l.drop 7) else acc) []

/-- The collected `dataLines` of a frame (a line is checked against
`event: ` first — `else if` in the source). -/
def dataLinesOf (lines : List (List Char)) : List (List Char) :=
  lines.filterMap (fun l =>
    if eventMark.isPrefixOf l then none
    else if dataMark.isPrefixOf l then some (l.drop 6) else none)

/-- The `ActionDef` interface (modules.ts / part_000).  `confirm?` and
`prompts?` are optional in TS; JS truthiness of `undefined` makes an absent
`confirm` false and an absent `prompts` an empty list. -/
structure ActionDef where
  key : List Char
  label : List Char
  action : List Char
  confirm : Bool
  prompts : List (List Char)
deriving DecidableEq

/-- The parsed payload of a `tui_frame` event: `{ ansi?: string,
actions?: ActionDef[] }`. -/
structure TuiPayload where
  ansi : Option (List Char)
  actions : Option (List ActionDef)
deriving DecidableEq

/-- `Map.set`: replace in place when the key exists (JS `Map` keeps the
original insertion position), append otherwise. -/
def mapSet {β : Type} : List (List Char × β) → List Char → β → List (List Char × β)
  | [], k, v => [(k, v)]
  | (k0, v0) :: rest, k, v =>
    if k0 = k then (k, v) :: rest else (k0, v0) :: mapSet rest k v

/-- `Map.delete` by key. -/
def mapDelete {β : Type} (m : List (List Char × β)) (k : List Char) : List (List Char × β) :=
  m.filter (fun p => p.1 != k)

/-- `Map.get`. -/
def lookupKey {β : Type} : List (List Char × β) → List Char → Option β
  | [], _ => none
  | (k0, v) :: rest, k => if k0 = k then some v else lookupKey rest k

/-- `keyMap.clear()` followed by `keyMap.set(a.key, a)` for each action. -/
def buildKeyMap (as : List ActionDef) : List (List Char × ActionDef) :=
  as.foldl (fun m a => mapSet m a.key a) []

def tuiFrameName : List Char := cs "tui_frame"

/-- State of the SSE listener loop together with the screen and action state
it mutates (`skipFirst`, the displayed screen contents, `actions`, `keyMap`). -/
structure SseState where
  skipFirst : Bool
  screen : List Char
  actions : List ActionDef
  keyMap : List (List Char × ActionDef)
deriving DecidableEq

/-- `JSON.parse(dataLines.join("\n"))` of one frame. -/
def sseFramePayload (parseTui : List Char → Option TuiPayload) (lines : List (List Char)) :
    Option TuiPayload :=
  parseTui (List.intercalate ['\n'] (dataLinesOf lines))

/-- Handling of one decoded frame by `startSseListener` (modules.ts lines
180–204): only `tui_frame` events are consumed; the first one is discarded
(`skipFirst`); afterwards a successfully parsed payload replaces the screen
with `data.ansi ?? ""` and — when `data.actions` is present — replaces the
action list and rebuilds the key map wholesale; parse failure is skipped. -/
def sseStep (parseTui : List Char → Option TuiPayload) (st : SseState)
    (lines : List (List Char)) : SseState :=
  if eventNameOf lines = tuiFrameName then
    if st.skipFirst then { st with skipFirst := false }
    else
      match sseFramePayload parseTui lines with
      | none => st
      | some payload =>
        let st1 := { st with screen := payload.ansi.getD [] }
        match payload.actions with
        | some acts => { st1 with actions := acts, keyMap := buildKeyMap acts }
        | none => st1
  else st

/-- The listener's state after a sequence of decoded frames, starting with
`skipFirst = true` as in the source. -/
def sseRun (parseTui : List Char → Option TuiPayload) (st : SseState)
    (frames : List (List (List Char))) : SseState :=
  frames.foldl (sseStep parseTui) st

/-! ## Progress multiplexer (StatusTracker, lib/status.ts)
The ora spinner is modeled by its visibility flag; the rendered text is
chalk/ora presentation and carries no tracked state. -/

structure Tracker where
  spinning : Bool
  activeSubtype : List Char
  activeTools : List (List Char)
  activeSubagents : List (List Char × List Char)
  paused : Bool
deriving DecidableEq

def initTracker : Tracker := ⟨false, [], [], [], false⟩

/-- `ensureSpinning`: no-op while paused, otherwise the spinner is started
(or its text updated, which does not change the model state). -/
def ensureSpinning (s : Tracker) : Tracker :=
  if s.paused then s else { s with spinning := true }

/-- `updateSpinner`: with no active sub-agents and no active tools the
segment list is empty and a visible unpaused spinner is stopped; otherwise
the spinner is (re)shown. -/
def updateSpinner (s : Tracker) : Tracker :=
  if s.activeSubagents = [] ∧ s.activeTools = [] then
    if s.spinning ∧ ¬s.paused then { s with spinning := false } else s
  else ensureSpinning s

/-- `addTool`: `push` unless already `includes`d, then `updateSpinner`. -/
def addTool (s : Tracker) (n : List Char) : Tracker :=
  updateSpinner
    (if n ∈ s.activeTools then s else { s with activeTools := s.activeTools ++ [n] })

/-- `removeTool`: `filter((t) => t !== name)`, then `updateSpinner`. -/
def removeTool (s : Tracker) (n : List Char) : Tracker :=
  updateSpinner { s with activeTools := s.activeTools.filter (fun t => t != n) }

def addSubagent (s : Tracker) (label : List Char) (subtype : Option (List Char)) : Tracker :=
  updateSpinner { s with activeSubagents := mapSet s.activeSubagents label (subtype.getD []) }

def removeSubagent (s : Tracker) (label : List Char) : Tracker :=
  updateSpinner { s with activeSubagents := mapDelete s.activeSubagents label }

def setSubtype (s : Tracker) (st : List Char) : Tracker :=
  updateSpinner { s with activeSubtype := st }

/-- `pauseForText`: stop a visible spinner and set the pause flag. -/
def pauseForText (s : Tracker) : Tracker :=
  { s with spinning := false, paused := true }

/-- `resumeAfterText`: clear the pause flag and re-show the spinner only if
there is still active work. -/
def resumeAfterText (s : Tracker) : Tracker :=
  let s1 := { s with paused := false }
  if s1.activeTools.length > 0 ∨ s1.activeSubagents.length > 0 then updateSpinner s1 else s1

/-- `finish()`: stop a visible spinner and clear all tracked state. -/
def finish (s : Tracker) : Tracker :=
  { s with spinning := false, activeTools := [], activeSubagents := [],
           activeSubtype := [], paused := false }

def unknownName : List Char := cs "unknown"

/-- `StatusTracker.handleEvent`'s switch over `event.type`. -/
def handleEvent (s : Tracker) (e : SseEv) : Tracker :=
  if e.type = cs "tool_call" then addTool s (e.tool_name.getD unknownName)
  else if e.type = cs "tool_result" then removeTool s (e.tool_name.getD unknownName)
  else if e.type = cs "subagent_spawned" then
    addSubagent s (e.label.getD (cs "?")) e.agent_subtype
  else if e.type = cs "subagent_completed" ∨ e.type = cs "subagent_failed" then
    removeSubagent s (e.label.getD (cs "?"))
  else if e.type = cs "subtype_change" then
    setSubtype s (e.agent_subtype.getD (e.label.getD []))
  else if e.type = cs "thinking" then ensureSpinning s
  else if e.type = cs "task_started" then
    if e.task_name.isSome then ensureSpinning s else s
  else if e.type = cs "task_completed" then updateSpinner s
  else if e.type = cs "text" then resumeAfterText (pauseForText s)
  else if e.type = doneTy then finish s
  else s

def runTracker (evs : List SseEv) : Tracker :=
  evs.foldl handleEvent initTracker

/-! ## Terminal session controllers
Keypress handlers of `modulesConnectCommand` (modules.ts lines 216–317) and
`dashboardCommand` (the dashboard command file, lines 225–326).  `render()`
(a network fetch followed by a screen write, plus — for the modules loop —
the action-map refresh treated by the push-listener model above) is recorded
as a render count; `promptUser` is an oracle `ask` from question to answer;
`process.exit` is the `exited` flag. -/

structure TermState where
  selected : Nat
  scroll : Nat
  running : Bool
  rawMode : Bool
  dataListener : Bool
  sseAborted : Bool
  timerActive : Bool
  keyMap : List (List Char × ActionDef)
deriving DecidableEq

structure Submission where
  action : List Char
  selected : Nat
  scroll : Nat
  inputs : Option (List (List Char))
deriving DecidableEq

structure KeyStep where
  state : TermState
  submitted : Option Submission
  renders : Nat
  exited : Bool
deriving DecidableEq

def noopStep (s : TermState) : KeyStep := ⟨s, none, 0, false⟩

/-- JS `String.toLowerCase` on the ASCII answers involved. -/
def jsToLower (l : List Char) : List Char := l.map Char.toLower

/-- The confirmation question asked for a confirm-gated action. -/
def confirmQuestion (label : List Char) : List Char :=
  cs "  Confirm " ++ label ++ cs "? (y/N) "

/-- The action branch shared verbatim by both loops: collect one prompt
answer per declared prompt (raw mode toggled off and back on around the
prompts — net unchanged), then, when `confirm` is set, ask the y/N question;
any answer whose lowercasing differs from "y" re-renders and returns without
submitting; otherwise the action identifier, the current cursor and the
collected inputs are submitted and a render follows. -/
def runActionFlow (ask : List Char → List Char) (a : ActionDef) (s : TermState) : KeyStep :=
  let inputs : Option (List (List Char)) :=
    if a.prompts.length > 0 then some (a.prompts.map ask) else none
  if a.confirm ∧ jsToLower (ask (confirmQuestion a.label)) ≠ cs "y" then
    ⟨s, none, 1, false⟩
  else
    ⟨s, some ⟨a.action, s.selected, s.scroll, inputs⟩, 1, false⟩

/-- Cleanup of the modules-connect loop (`cleanup()` plus `sseAbort?.abort()`
and `process.exit(0)` on the quit paths). -/
def modulesQuit (s : TermState) : KeyStep :=
  ⟨{ s with running := false, rawMode := false, dataListener := false, sseAborted := true },
   none, 0, true⟩

/-- The `modulesConnectCommand` keypress handler. -/
def modulesKey (ask : List Char → List Char) (s : TermState) (key : List Char) : KeyStep :=
  if s.running = false then noopStep s
  else if key = cs "\x03" ∨ key = cs "q" then modulesQuit s
  else if key = cs "\x1b" ∨ key = cs "\x1b\x1b" then modulesQuit s
  else if key = cs "\x1b[A" then
    if s.selected > 0 then
      let sel := s.selected - 1
      let scr := if sel < s.scroll then sel else s.scroll
      ⟨{ s with selected := sel, scroll := scr }, none, 1, false⟩
    else noopStep s
  else if key = cs "\x1b[B" then
    let sel := s.selected + 1
    let scr := if sel ≥ s.scroll + 20 then s.scroll + 1 else s.scroll
    ⟨{ s with selected := sel, scroll := scr }, none, 1, false⟩
  else if key = cs "\x1b[5~" then
    ⟨{ s with selected := s.selected - 20, scroll := s.scroll - 20 }, none, 1, false⟩
  else if key = cs "\x1b[6~" then
    ⟨{ s with selected := s.selected + 20, scroll := s.scroll + 20 }, none, 1, false⟩
  else
    match lookupKey s.keyMap key with
    | some a => runActionFlow ask a s
    | none => noopStep s

/-- Cleanup of the dashboard command loop (clears the refresh timer, no SSE
listener exists there). -/
def dashboardQuit (s : TermState) : KeyStep :=
  ⟨{ s with running := false, rawMode := false, dataListener := false, timerActive := false },
   none, 0, true⟩

/-- The `dashboardCommand` keypress handler: only Ctrl-C and `q` quit, the
navigation keys are gated on `meta.navigable`, and every other key — escape
included — is looked up in the server-declared action key map. -/
def dashboardKey (navigable : Bool) (ask : List Char → List Char) (s : TermState)
    (key : List Char) : KeyStep :=
  if s.running = false then noopStep s
  else if key = cs "\x03" then dashboardQuit s
  else if key = cs "q" then dashboardQuit s
  else if key = cs "\x1b[A" then
    if navigable ∧ s.selected > 0 then
      let sel := s.selected - 1
      let scr := if sel < s.scroll then sel else s.scroll
      ⟨{ s with selected := sel, scroll := scr }, none, 1, false⟩
    else noopStep s
  else if key = cs "\x1b[B" then
    if navigable then
      let sel := s.selected + 1
      let scr := if sel ≥ s.scroll + 20 then s.scroll + 1 else s.scroll
      ⟨{ s with selected := sel, scroll := scr }, none, 1, false⟩
    else noopStep s
  else if key = cs "\x1b[5~" then
    if navigable then
      ⟨{ s with selected := s.selected - 20, scroll := s.scroll - 20 }, none, 1, false⟩
    else noopStep s
  else if key = cs "\x1b[6~" then
    if navigable then
      ⟨{ s with selected := s.selected + 20, scroll := s.scroll + 20 }, none, 1, false⟩
    else noopStep s
  else
    match lookupKey s.keyMap key with
    | some a => runActionFlow ask a s
    | none => noopStep s

/-! ## Credentials (lib/credentials.ts)
`Buffer.from(parts[1], "base64url")` + `JSON.parse` is the oracle `decode`;
a thrown exception anywhere in the `try` is the catch branch.  JS numbers
are modeled exactly: NaN and the two infinities as their own constructors
and every finite value as a rational — IEEE-754 rounding and overflow of a
finite result are abstracted to exact rational arithmetic (the claims at
stake depend only on whether the coercion yields NaN and on the order of
the result against the clock, never on the rounded magnitude).
`Date.now() / 1000 > exp - 300` is compared exactly as
`(nowMs : ℚ) > 1000 * (exp - 300)`. -/

/-- A JSON value as produced by `JSON.parse` (arrays are not modeled — no
claim involves an array payload). -/
inductive JsonVal where
  | jnum (n : Int)
  | jstr (s : List Char)
  | jbool (b : Bool)
  | jnull
  | jobj (fields : List (List Char × JsonVal))

/-- JS truthiness of a JSON value. -/
def jsTruthy : JsonVal → Bool
  | .jnum n => n != 0
  | .jstr s => s != []
  | .jbool b => b
  | .jnull => false
  | .jobj _ => true

/-- A JS number as it matters to `exp - 300` and the comparison: NaN, an
infinity, or a finite value (exact rational, see the section comment). -/
inductive JsNum where
  | nan
  | posInf
  | negInf
  | num (q : ℚ)
deriving DecidableEq

/-- JS whitespace (the `StrWhiteSpaceChar` set trimmed by `ToNumber` and
`String.trim`): tab, LF, VT, FF, CR, space, NBSP, BOM, the Unicode
space-separator characters and the line/paragraph separators. -/
def isJsWhite (c : Char) : Bool :=
  c = ' ' || c = '\t' || c = '\n' || c = '\r' || c = '\x0b' || c = '\x0c' ||
  c = '\u00A0' || c = '\uFEFF' || c = '\u1680' ||
  ('\u2000' ≤ c ∧ c ≤ '\u200A') || c = '\u2028' || c = '\u2029' ||
  c = '\u202F' || c = '\u205F' || c = '\u3000'

/-- Strip JS whitespace from both ends (the implicit trim of `ToNumber`). -/
def jsNumTrim (l : List Char) : List Char :=
  ((l.dropWhile isJsWhite).reverse.dropWhile isJsWhite).reverse

/-- The value of a digit character in the given base (hex letters allowed,
rejected when at or above the base), `none` otherwise. -/
def digitVal (base : Nat) (c : Char) : Option Nat :=
  let v : Option Nat :=
    if '0' ≤ c ∧ c ≤ '9' then some (c.toNat - 48)
    else if 'a' ≤ c ∧ c ≤ 'f' then some (c.toNat - 87)
    else if 'A' ≤ c ∧ c ≤ 'F' then some (c.toNat - 55)
    else none
  match v with
  | some d => if d < base then some d else none
  | none => none

/-- A non-empty all-digit string in the given base, `none` otherwise. -/
def digitsVal (base : Nat) : List Char → Option Nat
  | [] => none
  | ds =>
    ds.foldl
      (fun acc c =>
        match acc, digitVal base c with
        | some a, some d => some (a * base + d)
        | _, _ => none)
      (some 0)

/-- Split at the first character satisfying `p`: the part before it and,
when it occurs, the part after it. -/
def splitAtFirst (p : Char → Bool) : List Char → List Char × Option (List Char)
  | [] => ([], none)
  | c :: rest =>
    if p c then ([], some rest)
    else
      let r := splitAtFirst p rest
      (c :: r.1, r.2)

/-- An optional leading sign: the sign and the remainder. -/
def parseSign : List Char → Int × List Char
  | '+' :: rest => (1, rest)
  | '-' :: rest => (-1, rest)
  | l => (1, l)

/-- `StrUnsignedDecimalLiteral` without `Infinity`: decimal digits with an
optional fraction and an optional exponent (`1`, `1.`, `.5`, `1.5e-2`,
`1e3`, …); `none` when the string is not of that form. -/
def parseUnsignedDec (l : List Char) : Option ℚ :=
  let me := splitAtFirst (fun c => c = 'e' || c = 'E') l
  let expVal : Option Int :=
    match me.2 with
    | none => some 0
    | some ex =>
      let se := parseSign ex
      (digitsVal 10 se.2).map (fun n => se.1 * (n : Int))
  match expVal with
  | none => none
  | some ev =>
    let ifp := splitAtFirst (fun c => c = '.') me.1
    match ifp.2 with
    | none => (digitsVal 10 ifp.1).map (fun n => (n : ℚ) * (10 : ℚ) ^ ev)
    | some fp =>
      if ifp.1 = [] ∧ fp = [] then none
      else
        let ipart : Option Nat := if ifp.1 = [] then some 0 else digitsVal 10 ifp.1
        let fpart : Option Nat := if fp = [] then some 0 else digitsVal 10 fp
        match ipart, fpart with
        | some i, some f =>
          some (((i : ℚ) + (f : ℚ) / ((10 : ℚ) ^ fp.length)) * (10 : ℚ) ^ ev)
        | _, _ => none

/-- JS `ToNumber` on a string: the full `StringNumericLiteral` grammar —
whitespace-trimmed; empty is 0; unsigned `0x`/`0X`, `0o`/`0O`, `0b`/`0B`
integer forms; otherwise an optional sign followed by `Infinity` or a
decimal literal with optional fraction and exponent; everything else is
NaN. -/
def jsStrToNumber (s : List Char) : JsNum :=
  match jsNumTrim s with
  | [] => .num 0
  | '0' :: 'x' :: ds => ((digitsVal 16 ds).map (fun n => JsNum.num n)).getD .nan
  | '0' :: 'X' :: ds => ((digitsVal 16 ds).map (fun n => JsNum.num n)).getD .nan
  | '0' :: 'o' :: ds => ((digitsVal 8 ds).map (fun n => JsNum.num n)).getD .nan
  | '0' :: 'O' :: ds => ((digitsVal 8 ds).map (fun n => JsNum.num n)).getD .nan
  | '0' :: 'b' :: ds => ((digitsVal 2 ds).map (fun n => JsNum.num n)).getD .nan
  | '0' :: 'B' :: ds => ((digitsVal 2 ds).map (fun n => JsNum.num n)).getD .nan
  | t =>
    let sr := parseSign t
    if sr.2 = cs "Infinity" then (if sr.1 = 1 then .posInf else .negInf)
    else
      match parseUnsignedDec sr.2 with
      | some q => .num ((sr.1 : ℚ) * q)
      | none => .nan

/-- JS `ToNumber` of the `exp` value as used in `exp - 300`.  A plain JSON
object coerces through `ToPrimitive` to the string `[object Object]`,
which is NaN. -/
def jsToNumber : JsonVal → JsNum
  | .jnum n => .num n
  | .jstr s => jsStrToNumber s
  | .jbool b => .num (if b then 1 else 0)
  | .jnull => .num 0
  | .jobj _ => .nan

def jsonLookup : List (List Char × JsonVal) → List Char → Option JsonVal
  | [], _ => none
  | (k, v) :: rest, key => if k = key then some v else jsonLookup rest key

/-- `payload.exp`: `none` when the property access itself throws (payload is
`null`), otherwise the property value (`undefined` = inner `none`). -/
def payloadExp : JsonVal → Option (Option JsonVal)
  | .jnull => none
  | .jobj fields => some (jsonLookup fields (cs "exp"))
  | _ => some none

/-- Split a character list at every occurrence of `sep` (JS
`String.split(".")`: empty pieces kept). -/
def splitOnChar (sep : Char) : List Char → List (List Char)
  | [] => [[]]
  | c :: rest =>
    let r := splitOnChar sep rest
    if c = sep then [] :: r
    else (c :: r.headD []) :: r.tail

/-- The stored credentials shape (credentials.ts). -/
structure Credentials where
  jwt : List Char
  username : List Char
  tenant_id : List Char
  gateway_token : Option (List Char)
  instance_domain : Option (List Char)
  jwt_expires_at : Option (List Char)
deriving DecidableEq

/-- `isJwtExpired` (credentials.ts lines 53–69). -/
def isJwtExpired (decode : List Char → Option JsonVal) (nowMs : Int)
    (creds : Credentials) : Bool :=
  if creds.jwt = [] then true
  else
    let parts := splitOnChar '.' creds.jwt
    if parts.length ≠ 3 then true
    else
      match decode (parts.getD 1 []) with
      | none => true
      | some payload =>
        match payloadExp payload with
        | none => true
        | some expOpt =>
          match expOpt with
          | none => true
          | some v =>
            if jsTruthy v = false then true
            else
              match jsToNumber v with
              | .nan => false
              | .posInf => false
              | .negInf => true
              | .num e => decide ((nowMs : ℚ) > 1000 * (e - 300))

/-- `requireCredentials` (credentials.ts lines 72–81); the
`loadCredentials()` result is passed in. -/
def requireCredentials (loaded : Option Credentials)
    (decode : List Char → Option JsonVal) (nowMs : Int) : Except (List Char) Credentials :=
  match loaded with
  | none => .error (cs "Not logged in. Run starkbot login first.")
  | some creds =>
    if isJwtExpired decode nowMs creds then
      .error (cs "Session expired. Run starkbot login to re-authenticate.")
    else .ok creds

/-! ## Concrete instances used as witnesses and counterexamples -/

def ev1 : SseEv := ⟨cs "text", some (cs "1"), none, none, none, none⟩

def ev2 : SseEv := ⟨cs "text", some (cs "2"), none, none, none, none⟩

def evDone : SseEv := mkEv doneTy

/-- A concrete stand-in for `JSON.parse` on the chat stream: the JSON texts
`1`, `2`, `9` parse to events, everything else (including the newline-join
`1\n2`, which is not valid JSON) fails. -/
def wParse : List Char → Option SseEv :=
  fun pl =>
    if pl = cs "1" then some ev1
    else if pl = cs "2" then some ev2
    else if pl = cs "9" then some evDone
    else none

def wStreamC3 : List Char := cs "data: 1\n\ndata: 9\n\ndata: 2\n\n"

def act1 : ActionDef := ⟨cs "r", cs "Restart", cs "restart", true, []⟩

def wPayloadA : TuiPayload := ⟨some (cs "SCREEN1"), some [act1]⟩

def wPayloadAB : TuiPayload := ⟨some (cs "S2"), none⟩

/-- A concrete stand-in for `JSON.parse` on the push-update stream. -/
def wTuiParse : List Char → Option TuiPayload :=
  fun pl =>
    if pl = cs "A" then some wPayloadA
    else if pl = cs "A\nB" then some wPayloadAB
    else none

def wSseSkip : SseState := ⟨true, cs "OLD", [], []⟩

def wSseNoSkip : SseState := ⟨false, cs "OLD", [], []⟩

/-- A running interactive session with raw mode held and no bound actions. -/
def wTermState : TermState := ⟨0, 0, true, true, true, false, true, []⟩

def wConfirmAct : ActionDef := ⟨cs "d", cs "Delete", cs "delete", true, []⟩

/-- A running session whose key map binds `d` to a confirm-gated action. -/
def wTermAct : TermState := ⟨3, 1, true, true, true, false, true, [(cs "d", wConfirmAct)]⟩

/-- A prompt oracle answering `n` to everything. -/
def askN : List Char → List Char := fun _ => cs "n"

def wTrack : Tracker := ⟨true, [], [cs "search"], [], false⟩

def cexCreds : Credentials := ⟨cs "aaa.bbb.ccc", [], [], none, none, none⟩

/-- Decode oracle for a JWT whose payload is `{"exp":"abc"}` — valid
base64url-encoded JSON whose `exp` is a truthy non-numeric string. -/
def cexDecode : List Char → Option JsonVal :=
  fun p => if p = cs "bbb" then some (.jobj [(cs "exp", .jstr (cs "abc"))]) else none

def wCredsEmpty : Credentials := ⟨[], [], [], none, none, none⟩

def wCredsTwoParts : Credentials := ⟨cs "aaa.bbb", [], [], none, none, none⟩

def decodeNone : List Char → Option JsonVal := fun _ => none

/-- Decode oracle for a payload `{}` with no `exp` field. -/
def decodeNoExp : List Char → Option JsonVal :=
  fun p => if p = cs "bbb" then some (.jobj []) else none

/-- Decode oracle for a payload `{"exp":0}` (falsy `exp`). -/
def decodeZeroExp : List Char → Option JsonVal :=
  fun p => if p = cs "bbb" then some (.jobj [(cs "exp", .jnum 0)]) else none

theorem findDelim_cons2 (a b : Char) (t : List Char) :
    findDelim (a :: b :: t) =
      if a = '\n' ∧ b = '\n' then some 0 else (findDelim (b :: t)).map (· + 1) := rfl

theorem findDelim_bound : ∀ (l : List Char) (i : Nat), findDelim l = some i → i + 1 < l.length := by
  intro l
  induction l with
  | nil => intro i h; simp [findDelim] at h
  | cons a rest ih =>
    intro i h
    match rest with
    | [] => simp [findDelim] at h
    | b :: t =>
      rw [findDelim_cons2] at h
      by_cases hab : a = '\n' ∧ b = '\n'
      · rw [if_pos hab] at h
        cases h
        simp
      · rw [if_neg hab] at h
        rcases Option.map_eq_some'.mp h with ⟨j, hj, rfl⟩
        have := ih j hj
        simp at this ⊢
        omega

theorem findDelim_append (l m : List Char) (i : Nat) (h : findDelim l = some i) :
    findDelim (l ++ m) = some i := by
  induction l generalizing i with
  | nil => simp [findDelim] at h
  | cons a rest ih =>
    match rest with
    | [] => simp [findDelim] at h
    | b :: t =>
      rw [findDelim_cons2] at h
      rw [List.cons_append, List.cons_append, findDelim_cons2]
      by_cases hab : a = '\n' ∧ b = '\n'
      · rw [if_pos hab] at h
        cases h
        rw [if_pos hab]
      · rw [if_neg hab] at h
        rcases Option.map_eq_some'.mp h with ⟨j, hj, rfl⟩
        rw [if_neg hab, ← List.cons_append, ih j hj]
        rfl

theorem extractFuel_congr : ∀ (n m : Nat) (buf : List Char),
    buf.length ≤ n → buf.length ≤ m → extractFuel n buf = extractFuel m buf := by
  intro n
  induction n with
  | zero =>
    intro m buf hn _
    have : buf = [] := List.length_eq_zero.mp (Nat.le_zero.mp hn)
    subst this
    cases m with
    | zero => rfl
    | succ m => simp [extractFuel, findDelim]
  | succ n ih =>
    intro m buf hn hm
    cases m with
    | zero =>
      have : buf = [] := List.length_eq_zero.mp (Nat.le_zero.mp hm)
      subst this
      simp [extractFuel, findDelim]
    | succ m =>
      rw [extractFuel, extractFuel]
      cases hd : findDelim buf with
      | none => rfl
      | some i =>
        have hb := findDelim_bound buf i hd
        have hdrop : (buf.drop (i + 2)).length ≤ n := by
          simp [List.length_drop]; omega
        have hdrop' : (buf.drop (i + 2)).length ≤ m := by
          simp [List.length_drop]; omega
        simp only [ih n (buf.drop (i + 2)) hdrop (by simpa using hdrop),
          ih m (buf.drop (i + 2)) hdrop hdrop']

/-- One-step unfolding of `extract`. -/
theorem extract_eq (buf : List Char) :
    extract buf =
      match findDelim buf with
      | none => ([], buf)
      | some i =>
        let p := extract (buf.drop (i + 2))
        (buf.take i :: p.1, p.2) := by
  unfold extract
  cases hd : findDelim buf with
  | none =>
    cases hlen : buf.length with
    | zero => simp [extractFuel]
    | succ n => simp [extractFuel, hd]
  | some i =>
    have hb := findDelim_bound buf i hd
    cases hlen : buf.length with
    | zero => omega
    | succ n =>
      simp only [extractFuel, hd]
      have : (buf.drop (i + 2)).length ≤ n := by
        simp [List.length_drop]; omega
      rw [extractFuel_congr n (buf.drop (i + 2)).length (buf.drop (i + 2)) this (Nat.le_refl _)]

theorem extract_of_none {buf : List Char} (h : findDelim buf = none) :
    extract buf = ([], buf) := by
  rw [extract_eq, h]

theorem extract_of_some {buf : List Char} {i : Nat} (h : findDelim buf = some i) :
    extract buf =
      (buf.take i :: (extract (buf.drop (i + 2))).1, (extract (buf.drop (i + 2))).2) := by
  rw [extract_eq, h]

theorem extract_snd_delim_free : ∀ (n : Nat) (buf : List Char), buf.length ≤ n →
    findDelim (extract buf).2 = none := by
  intro n
  induction n with
  | zero =>
    intro buf h
    have : buf = [] := List.length_eq_zero.mp (Nat.le_zero.mp h)
    subst this
    rw [extract_of_none] <;> rfl
  | succ n ih =>
    intro buf h
    cases hd : findDelim buf with
    | none => rw [extract_of_none hd]; exact hd
    | some i =>
      rw [extract_eq, hd]
      have hb := findDelim_bound buf i hd
      exact ih (buf.drop (i + 2)) (by simp [List.length_drop]; omega)

theorem extract_append_aux : ∀ (n : Nat) (b c : List Char), b.length ≤ n →
    extract (b ++ c) =
      ((extract b).1 ++ (extract ((extract b).2 ++ c)).1,
       (extract ((extract b).2 ++ c)).2) := by
  intro n
  induction n with
  | zero =>
    intro b c h
    have : b = [] := List.length_eq_zero.mp (Nat.le_zero.mp h)
    subst this
    rw [@extract_of_none [] rfl]
    simp
  | succ n ih =>
    intro b c h
    cases hd : findDelim b with
    | none =>
      rw [extract_of_none hd]
      simp
    | some i =>
      have hb := findDelim_bound b i hd
      have htake : (b ++ c).take i = b.take i := by
        rw [List.take_append_eq_append_take, Nat.sub_eq_zero_of_le (by omega)]
        simp
      have hdrop : (b ++ c).drop (i + 2) = b.drop (i + 2) ++ c := by
        rw [List.drop_append_eq_append_drop, Nat.sub_eq_zero_of_le (by omega)]
        simp
      have hlen : (b.drop (i + 2)).length ≤ n := by
        rw [List.length_drop]
        omega
      have hrec := ih (b.drop (i + 2)) c hlen
      rw [extract_of_some (findDelim_append b c i hd)]
      simp only [htake, hdrop, hrec]
      rw [extract_of_some hd]
      simp

theorem feedChunks_spec : ∀ (chunks : List (List Char)) (buf : List Char),
    findDelim buf = none →
    feedChunks buf chunks = extract (buf ++ chunks.flatten) := by
  intro chunks
  induction chunks with
  | nil =>
    intro buf h
    simp [feedChunks, extract_of_none h]
  | cons c rest ih =>
    intro buf h
    rw [feedChunks]
    have hsnd : findDelim (extract (buf ++ c)).2 = none :=
      extract_snd_delim_free (buf ++ c).length (buf ++ c) (Nat.le_refl _)
    rw [ih (extract (buf ++ c)).2 hsnd]
    have hassoc : buf ++ (c :: rest).flatten = (buf ++ c) ++ rest.flatten := by
      simp
    rw [hassoc, extract_append_aux (buf ++ c).length (buf ++ c) rest.flatten (Nat.le_refl _)]

/-! ## Chat-stream dispatch lemmas -/

theorem chatFrameStep_cons_some {parse : List Char → Option SseEv} {line : List Char}
    {rest : List (List Char)} {ev : SseEv}
    (h1 : dataMark.isPrefixOf line = true) (h2 : parse (line.drop 6) = some ev) :
    chatFrameStep parse (line :: rest) =
      if isDoneEv ev then ([ev], true)
      else (ev :: (chatFrameStep parse rest).1, (chatFrameStep parse rest).2) := by
  rw [chatFrameStep, if_pos h1, h2]

theorem chatFrameStep_cons_none {parse : List Char → Option SseEv} {line : List Char}
    {rest : List (List Char)}
    (h1 : dataMark.isPrefixOf line = true) (h2 : parse (line.drop 6) = none) :
    chatFrameStep parse (line :: rest) = chatFrameStep parse rest := by
  rw [chatFrameStep, if_pos h1, h2]

theorem chatFrameStep_cons_nodata {parse : List Char → Option SseEv} {line : List Char}
    {rest : List (List Char)} (h1 : dataMark.isPrefixOf line = false) :
    chatFrameStep parse (line :: rest) = chatFrameStep parse rest := by
  rw [chatFrameStep, if_neg (by simp [h1])]

theorem chatFrameStep_spec (parse : List Char → Option SseEv) :
    ∀ lines, chatFrameStep parse lines =
      (takeThroughDone (frameDataEvents parse lines),
       (frameDataEvents parse lines).any isDoneEv) := by
  intro lines
  induction lines with
  | nil => rfl
  | cons line rest ih =>
    cases hpre : dataMark.isPrefixOf line with
    | false =>
      have hpre' : ¬ dataMark <+: line := by
        rw [← List.isPrefixOf_iff_prefix]
        simp [hpre]
      rw [chatFrameStep_cons_nodata hpre, ih]
      simp [frameDataEvents, hpre']
    | true =>
      have hpre' : dataMark <+: line := List.isPrefixOf_iff_prefix.mp hpre
      cases hp : parse (line.drop 6) with
      | none =>
        rw [chatFrameStep_cons_none hpre hp, ih]
        simp [frameDataEvents, hpre', hp]
      | some ev =>
        rw [chatFrameStep_cons_some hpre hp]
        by_cases hdone : isDoneEv ev
        · simp [frameDataEvents, hpre', hp, takeThroughDone, hdone]
        · simp [frameDataEvents, hpre', hp, takeThroughDone, hdone, ih]

theorem takeThroughDone_of_no_done {l : List SseEv} (h : l.any isDoneEv = false) :
    takeThroughDone l = l := by
  induction l with
  | nil => rfl
  | cons e rest ih =>
    simp only [List.any_cons, Bool.or_eq_false_iff] at h
    rw [takeThroughDone, if_neg (by simp [h.1]), ih h.2]

theorem takeThroughDone_append (a b : List SseEv) :
    takeThroughDone (a ++ b) =
      if a.any isDoneEv then takeThroughDone a else a ++ takeThroughDone b := by
  induction a with
  | nil => simp
  | cons e rest ih =>
    by_cases hdone : isDoneEv e
    · simp [takeThroughDone, hdone]
    · rw [List.cons_append, takeThroughDone, if_neg hdone, ih]
      by_cases hr : rest.any isDoneEv
      · simp [hr, hdone, takeThroughDone]
      · simp [hr, hdone]

theorem chatFramesEvents_spec (parse : List Char → Option SseEv) :
    ∀ fs, chatFramesEvents parse fs =
      takeThroughDone ((fs.map (frameDataEvents parse)).flatten) := by
  intro fs
  induction fs with
  | nil => rfl
  | cons f rest ih =>
    rw [chatFramesEvents, chatFrameStep_spec]
    simp only [List.map_cons, List.flatten_cons, takeThroughDone_append]
    by_cases hd : (frameDataEvents parse f).any isDoneEv
    · simp [hd]
    · have h0 : (frameDataEvents parse f).any isDoneEv = false := by simpa using hd
      simp [hd, ih, takeThroughDone_of_no_done h0]

theorem takeThroughDone_split (pre post : List SseEv) (d : SseEv)
    (hd : isDoneEv d = true) (hpre : ∀ e ∈ pre, isDoneEv e = false) :
    takeThroughDone (pre ++ d :: post) = pre ++ [d] := by
  induction pre with
  | nil => simp [takeThroughDone, hd]
  | cons e rest ih =>
    have he : isDoneEv e = false := hpre e (by simp)
    rw [List.cons_append, takeThroughDone, if_neg (by simp [he]),
      ih (fun x hx => hpre x (by simp [hx]))]
    rfl

/-- C3: `done` terminates chat-stream consumption — whenever the flat
per-data-line event sequence of the buffered input splits as
`pre ++ done-event :: post` with no `done` in `pre`, the events actually
dispatched are exactly `pre` followed by that `done` event: the `done`
event itself reaches the handler and nothing after it (in the same frame or
in any later frame) is ever dispatched. -/
theorem done_terminates_stream (parse : List Char → Option SseEv) (s : List Char)
    (pre post : List SseEv) (d : SseEv)
    (h1 : streamDataEvents parse s = pre ++ d :: post)
    (h2 : isDoneEv d = true)
    (h3 : ∀ e ∈ pre, isDoneEv e = false) :
    chatStreamEvents parse s = pre ++ [d] := by
  unfold chatStreamEvents
  unfold streamDataEvents at h1
  rw [chatFramesEvents_spec, h1]
  exact takeThroughDone_split pre post d h2 h3

/-- Witness for C3 at the concrete stream
`"data: 1\n\ndata: 9\n\ndata: 2\n\n"` (the `9` payload parses to a
`done`-typed event): the third frame's event is not dispatched. -/
theorem done_terminates_stream_witness :
    streamDataEvents wParse wStreamC3 = [ev1, evDone, ev2] ∧
    chatStreamEvents wParse wStreamC3 = [ev1, evDone] :=
  ⟨by decide,
   done_terminates_stream wParse wStreamC3 [ev1] [ev2] evDone (by decide) (by decide)
     (by decide)⟩

/-- C2: the frame decoder is split-invariant — feeding any chunking of a
character stream produces exactly the frames (and trailing buffered
remainder) obtained from the whole stream at once.  In particular a
delimiter that straddles a chunk boundary is still recognized and an
incomplete trailing frame stays in the buffer (second component). -/
theorem frame_decoder_split_invariant (chunks : List (List Char)) :
    feedChunks [] chunks = extract chunks.flatten := by
  have := feedChunks_spec chunks [] rfl
  simpa using this

/-- C1 counterexample: the claim states that every well-formed frame yields
exactly one event, its `data: ` lines being newline-joined and parsed as one
JSON value.  In `chatStream` each `data: ` line is parsed on its own: the
well-formed frame with the two data lines `data: 1` and `data: 2` (each line
valid JSON on its own, their newline-join not valid JSON) dispatches two
events, not one. -/
theorem one_event_per_frame_cex :
    (chatFrameStep wParse [cs "data: 1", cs "data: 2"]).1 = [ev1, ev2] ∧
    (chatFrameStep wParse [cs "data: 1", cs "data: 2"]).1.length ≠ 1 := by
  constructor
  · decide
  · decide

/-- C1 (amended): only the push-update listener newline-joins the `data: `
lines of a frame and parses them as one JSON value (one screen update per
frame, drawn from that single parse); the chat-stream decoder instead parses
each `data: ` line separately, dispatching one event per successfully
parsed data line — exactly one event per frame only when exactly one data
line parses. -/
theorem one_event_per_frame_amended :
    (∀ (parse : List Char → Option SseEv) lines,
       (frameDataEvents parse lines).any isDoneEv = false →
       (chatFrameStep parse lines).1 = frameDataEvents parse lines) ∧
    (∀ (pt : List Char → Option TuiPayload) (st : SseState) lines payload,
       st.skipFirst = false →
       pt (List.intercalate ['\n'] (dataLinesOf lines)) = some payload →
       eventNameOf lines = tuiFrameName →
       (sseStep pt st lines).screen = payload.ansi.getD []) := by
  constructor
  · intro parse lines h
    rw [chatFrameStep_spec]
    exact takeThroughDone_of_no_done h
  · intro pt st lines payload hskip hp hev
    obtain ⟨pa, pacts⟩ := payload
    rw [sseStep, if_pos hev, if_neg (by simp [hskip])]
    unfold sseFramePayload
    rw [hp]
    cases pacts <;> rfl

/-- Witness for the amended C1: the two-data-line frame dispatches one chat
event per parsed line, and the push listener's screen update comes from the
single parse of the newline-joined payload `A\nB`. -/
theorem one_event_per_frame_amended_witness :
    (chatFrameStep wParse [cs "data: 1", cs "data: 2"]).1 =
      frameDataEvents wParse [cs "data: 1", cs "data: 2"] ∧
    (sseStep wTuiParse wSseNoSkip
        [cs "event: tui_frame", cs "data: A", cs "data: B"]).screen =
      wPayloadAB.ansi.getD [] :=
  ⟨one_event_per_frame_amended.1 wParse [cs "data: 1", cs "data: 2"] (by decide),
   one_event_per_frame_amended.2 wTuiParse wSseNoSkip
     [cs "event: tui_frame", cs "data: A", cs "data: B"] wPayloadAB
     (by decide) (by decide) (by decide)⟩

theorem frameDataEvents_nil_of_no_data (parse : List Char → Option SseEv) :
    ∀ lines, (∀ l ∈ lines, dataMark.isPrefixOf l = true → parse (l.drop 6) = none) →
    frameDataEvents parse lines = [] := by
  intro lines h
  induction lines with
  | nil => rfl
  | cons line rest ih =>
    cases hpre : dataMark.isPrefixOf line with
    | false =>
      have hpre' : ¬ dataMark <+: line := by
        rw [← List.isPrefixOf_iff_prefix]
        simp [hpre]
      rw [frameDataEvents] at ih ⊢
      simp only [List.filterMap_cons]
      rw [if_neg (by simpa using hpre')]
      exact ih (fun l hl hd => h l (by simp [hl]) hd)
    | true =>
      have hp : parse (line.drop 6) = none := h line (by simp) hpre
      rw [frameDataEvents] at ih ⊢
      simp only [List.filterMap_cons]
      rw [if_pos (by simpa using hpre), hp]
      exact ih (fun l hl hd => h l (by simp [hl]) hd)

/-- C8: malformed frames are skipped silently and the stream goes on.  A
frame none of whose lines is a `data: ` line produces no chat event; a
frame all of whose data payloads fail to parse contributes nothing and the
following frames are dispatched exactly as if it were absent; and the push
listener leaves its state untouched on a frame whose joined payload fails
to parse.  (The embedding is total — the caught JSON exception is the
`none` branch, so no error escapes.) -/
theorem malformed_frame_skipped :
    (∀ (parse : List Char → Option SseEv) lines,
       (∀ l ∈ lines, dataMark.isPrefixOf l = false) →
       chatFrameStep parse lines = ([], false)) ∧
    (∀ (parse : List Char → Option SseEv) lines fs,
       (∀ l ∈ lines, dataMark.isPrefixOf l = true → parse (l.drop 6) = none) →
       chatFramesEvents parse (lines :: fs) = chatFramesEvents parse fs) ∧
    (∀ (pt : List Char → Option TuiPayload) (st : SseState) lines,
       st.skipFirst = false →
       sseFramePayload pt lines = none →
       sseStep pt st lines = st) := by
  refine ⟨?_, ?_, ?_⟩
  · intro parse lines h
    induction lines with
    | nil => rfl
    | cons line rest ih =>
      rw [chatFrameStep_cons_nodata (h line (by simp))]
      exact ih (fun l hl => h l (by simp [hl]))
  · intro parse lines fs h
    rw [chatFramesEvents, chatFrameStep_spec, frameDataEvents_nil_of_no_data parse lines h]
    simp [takeThroughDone]
  · intro pt st lines hskip hp
    rw [sseStep]
    by_cases hev : eventNameOf lines = tuiFrameName
    · rw [if_pos hev, if_neg (by simp [hskip]), hp]
    · rw [if_neg hev]

/-- Witness for C8: a frame with only an `event:` line yields nothing; a
frame whose only data payload `x` fails to parse drops out of the dispatched
event list; an unparseable push frame leaves the listener state unchanged. -/
theorem malformed_frame_skipped_witness :
    chatFrameStep wParse [cs "event: foo", cs ": comment"] = ([], false) ∧
    chatFramesEvents wParse [[cs "data: x"], [cs "data: 1"]] =
      chatFramesEvents wParse [[cs "data: 1"]] ∧
    sseStep wTuiParse wSseNoSkip [cs "event: tui_frame", cs "data: zz"] = wSseNoSkip :=
  ⟨malformed_frame_skipped.1 wParse [cs "event: foo", cs ": comment"] (by decide),
   malformed_frame_skipped.2.1 wParse [cs "data: x"] [[cs "data: 1"]] (by decide),
   malformed_frame_skipped.2.2 wTuiParse wSseNoSkip [cs "event: tui_frame", cs "data: zz"]
     (by decide) (by decide)⟩

/-- C9: the push-update listener discards the first `tui_frame` event after
connecting — only the skip flag changes, the screen and action state stay
as they were — and every later `tui_frame` event with a parseable payload
replaces the screen with the payload's ANSI content and, exactly when the
payload carries an action set, replaces the action list and key map
wholesale (otherwise both are kept). -/
theorem push_listener_updates :
    (∀ (pt : List Char → Option TuiPayload) (st : SseState) lines,
       st.skipFirst = true → eventNameOf lines = tuiFrameName →
       sseStep pt st lines = { st with skipFirst := false }) ∧
    (∀ (pt : List Char → Option TuiPayload) (st : SseState) lines payload,
       st.skipFirst = false → eventNameOf lines = tuiFrameName →
       sseFramePayload pt lines = some payload →
       (sseStep pt st lines).screen = payload.ansi.getD [] ∧
       (∀ acts, payload.actions = some acts →
          (sseStep pt st lines).actions = acts ∧
          (sseStep pt st lines).keyMap = buildKeyMap acts) ∧
       (payload.actions = none →
          (sseStep pt st lines).actions = st.actions ∧
          (sseStep pt st lines).keyMap = st.keyMap)) := by
  constructor
  · intro pt st lines hskip hev
    rw [sseStep, if_pos hev, if_pos hskip]
  · intro pt st lines payload hskip hev hp
    obtain ⟨pa, pacts⟩ := payload
    rw [sseStep, if_pos hev, if_neg (by simp [hskip]), hp]
    cases pacts with
    | none =>
      refine ⟨rfl, ?_, fun _ => ⟨rfl, rfl⟩⟩
      intro acts ha
      exact absurd ha (by simp)
    | some acts0 =>
      refine ⟨rfl, ?_, ?_⟩
      · intro acts ha
        obtain rfl : acts0 = acts := by simpa using ha
        exact ⟨rfl, rfl⟩
      · intro ha
        exact absurd ha (by simp)

/-- Witness for C9 at concrete frames: the first `tui_frame` event only
clears the skip flag; the next replaces the screen with `SCREEN1` and the
action map with the parsed action set. -/
theorem push_listener_updates_witness :
    sseStep wTuiParse wSseSkip [cs "event: tui_frame", cs "data: A"] =
      { wSseSkip with skipFirst := false } ∧
    (sseStep wTuiParse wSseNoSkip [cs "event: tui_frame", cs "data: A"]).screen =
      wPayloadA.ansi.getD [] ∧
    (sseStep wTuiParse wSseNoSkip [cs "event: tui_frame", cs "data: A"]).actions = [act1] ∧
    (sseStep wTuiParse wSseNoSkip [cs "event: tui_frame", cs "data: A"]).keyMap =
      buildKeyMap [act1] :=
  ⟨push_listener_updates.1 wTuiParse wSseSkip [cs "event: tui_frame", cs "data: A"]
     (by decide) (by decide),
   (push_listener_updates.2 wTuiParse wSseNoSkip [cs "event: tui_frame", cs "data: A"]
     wPayloadA (by decide) (by decide) (by decide)).1,
   ((push_listener_updates.2 wTuiParse wSseNoSkip [cs "event: tui_frame", cs "data: A"]
     wPayloadA (by decide) (by decide) (by decide)).2.1 [act1] (by decide)).1,
   ((push_listener_updates.2 wTuiParse wSseNoSkip [cs "event: tui_frame", cs "data: A"]
     wPayloadA (by decide) (by decide) (by decide)).2.1 [act1] (by decide)).2⟩

/-! ## Progress multiplexer theorems -/

/-- C6: `finish()` unconditionally empties the active-tools list, the
sub-agent map and the current subtype, clears the pause flag and hides the
status line, from any state; and calling it again changes nothing. -/
theorem finish_clears_everything (s : Tracker) :
    (finish s).activeTools = [] ∧
    (finish s).activeSubagents = [] ∧
    (finish s).activeSubtype = [] ∧
    (finish s).paused = false ∧
    (finish s).spinning = false ∧
    finish (finish s) = finish s := by
  simp [finish]

theorem updateSpinner_tools (s : Tracker) : (updateSpinner s).activeTools = s.activeTools := by
  rw [updateSpinner]
  split
  · split <;> rfl
  · rw [ensureSpinning]
    split <;> rfl

theorem addTool_tools_of_mem {s : Tracker} {n : List Char} (h : n ∈ s.activeTools) :
    (addTool s n).activeTools = s.activeTools := by
  rw [addTool, if_pos h, updateSpinner_tools]

theorem removeTool_tools_of_not_mem {s : Tracker} {n : List Char} (h : n ∉ s.activeTools) :
    (removeTool s n).activeTools = s.activeTools := by
  rw [removeTool, updateSpinner_tools]
  exact List.filter_eq_self.mpr (fun a ha => by
    simp only [bne_iff_ne, ne_eq]
    exact fun hc => h (hc ▸ ha))

theorem addTool_nodup {s : Tracker} {n : List Char} (h : s.activeTools.Nodup) :
    (addTool s n).activeTools.Nodup := by
  rw [addTool]
  by_cases hm : n ∈ s.activeTools
  · rw [if_pos hm, updateSpinner_tools]
    exact h
  · rw [if_neg hm, updateSpinner_tools]
    simp [List.nodup_append, h, hm]

theorem removeTool_nodup {s : Tracker} {n : List Char} (h : s.activeTools.Nodup) :
    (removeTool s n).activeTools.Nodup := by
  rw [removeTool, updateSpinner_tools]
  exact h.filter _

theorem handleEvent_nodup (s : Tracker) (e : SseEv) (h : s.activeTools.Nodup) :
    (handleEvent s e).activeTools.Nodup := by
  rw [handleEvent]
  split
  · exact addTool_nodup h
  · split
    · exact removeTool_nodup h
    · split
      · rw [addSubagent, updateSpinner_tools]; exact h
      · split
        · rw [removeSubagent, updateSpinner_tools]; exact h
        · split
          · rw [setSubtype, updateSpinner_tools]; exact h
          · split
            · rw [ensureSpinning]; split <;> exact h
            · split
              · split
                · rw [ensureSpinning]; split <;> exact h
                · exact h
              · split
                · rw [updateSpinner_tools]; exact h
                · split
                  · rw [resumeAfterText]
                    split
                    · rw [updateSpinner_tools]; exact h
                    · exact h
                  · split
                    · simp [finish]
                    · exact h

/-- C7: over any event sequence the tracker's active-tools list stays
duplicate-free; adding an already-present tool name leaves the list exactly
as it was; and removing an absent name is a no-op on the list. -/
theorem active_tools_unique :
    (∀ evs, (runTracker evs).activeTools.Nodup) ∧
    (∀ (s : Tracker) n, n ∈ s.activeTools → (addTool s n).activeTools = s.activeTools) ∧
    (∀ (s : Tracker) n, n ∉ s.activeTools → (removeTool s n).activeTools = s.activeTools) := by
  refine ⟨?_, ?_, ?_⟩
  · intro evs
    rw [runTracker]
    have : ∀ (l : List SseEv) (s : Tracker), s.activeTools.Nodup →
        (l.foldl handleEvent s).activeTools.Nodup := by
      intro l
      induction l with
      | nil => intro s hs; exact hs
      | cons e rest ih =>
        intro s hs
        exact ih (handleEvent s e) (handleEvent_nodup s e hs)
    exact this evs initTracker (by simp [initTracker])
  · intro s n h
    exact addTool_tools_of_mem h
  · intro s n h
    exact removeTool_tools_of_not_mem h

/-- Witness for C7: with `search` active, a duplicate `addTool "search"`
and a `removeTool "web"` for the absent `web` both leave the list alone. -/
theorem active_tools_unique_witness :
    (addTool wTrack (cs "search")).activeTools = wTrack.activeTools ∧
    (removeTool wTrack (cs "web")).activeTools = wTrack.activeTools :=
  ⟨active_tools_unique.2.1 wTrack (cs "search") (by decide),
   active_tools_unique.2.2 wTrack (cs "web") (by decide)⟩

/-! ## Terminal session controller theorems -/

/-- C4 counterexample: in `dashboardCommand`'s interactive loop the escape
key is not a quit key.  In a running session with raw mode held and no
bound actions, pressing escape is a complete no-op — the session is not
terminated, raw mode stays held, no cleanup runs — whereas the claim says
escape must behave exactly like `q` and the interrupt signal. -/
theorem dashboard_escape_not_quit_cex :
    dashboardKey true askN wTermState (cs "\x1b") = noopStep wTermState ∧
    (dashboardKey true askN wTermState (cs "\x1b")).state.running = true ∧
    (dashboardKey true askN wTermState (cs "\x1b")).state.rawMode = true ∧
    (dashboardKey true askN wTermState (cs "\x1b")).exited = false := by
  refine ⟨by decide, by decide, by decide, by decide⟩

/-- C4 (amended): escape (like `q` and Ctrl-C) terminates the
modules-connect TUI loop with full cleanup — running flag cleared, raw mode
released, data listeners removed, the SSE connection aborted, the process
exited — but in the `dashboardCommand` loop only `q` and Ctrl-C quit;
escape never terminates that loop (it falls through to the action key map,
which cannot terminate the session). -/
theorem escape_key_behaviour :
    (∀ (ask : List Char → List Char) (s : TermState), s.running = true →
       modulesKey ask s (cs "\x1b") = modulesQuit s ∧
       modulesKey ask s (cs "q") = modulesQuit s ∧
       modulesKey ask s (cs "\x03") = modulesQuit s ∧
       (modulesQuit s).state.running = false ∧
       (modulesQuit s).state.rawMode = false ∧
       (modulesQuit s).state.dataListener = false ∧
       (modulesQuit s).state.sseAborted = true ∧
       (modulesQuit s).exited = true) ∧
    (∀ (nav : Bool) (ask : List Char → List Char) (s : TermState),
       (dashboardKey nav ask s (cs "\x1b")).state.running = s.running ∧
       (dashboardKey nav ask s (cs "\x1b")).state.rawMode = s.rawMode ∧
       (dashboardKey nav ask s (cs "\x1b")).exited = false) := by
  constructor
  · intro ask s hrun
    refine ⟨?_, ?_, ?_, rfl, rfl, rfl, rfl, rfl⟩
    · rw [modulesKey, if_neg (by simp [hrun]), if_neg (by decide), if_pos (Or.inl rfl)]
    · rw [modulesKey, if_neg (by simp [hrun]), if_pos (Or.inr rfl)]
    · rw [modulesKey, if_neg (by simp [hrun]), if_pos (Or.inl rfl)]
  · intro nav ask s
    by_cases hr : s.running = false
    · rw [dashboardKey, if_pos hr]
      exact ⟨rfl, rfl, rfl⟩
    · rw [dashboardKey, if_neg hr, if_neg (by decide), if_neg (by decide),
        if_neg (by decide), if_neg (by decide), if_neg (by decide), if_neg (by decide)]
      cases hlk : lookupKey s.keyMap (cs "\x1b") with
      | none => exact ⟨rfl, rfl, rfl⟩
      | some a =>
        simp only [runActionFlow]
        split
        · exact ⟨rfl, rfl, rfl⟩
        · exact ⟨rfl, rfl, rfl⟩

/-- Witness for the amended C4 at a concrete running session: escape
terminates the modules loop (cleanup state) and leaves the dashboard loop
running. -/
theorem escape_key_behaviour_witness :
    modulesKey askN wTermState (cs "\x1b") = modulesQuit wTermState ∧
    (modulesKey askN wTermState (cs "\x1b")).state.running = false ∧
    (dashboardKey true askN wTermState (cs "\x1b")).state.running = wTermState.running :=
  ⟨(escape_key_behaviour.1 askN wTermState (by decide)).1,
   by rw [(escape_key_behaviour.1 askN wTermState (by decide)).1]; decide,
   (escape_key_behaviour.2 true askN wTermState).1⟩

/-- C5: a confirm-gated action whose confirmation answer lowercases to
anything but `y` is cancelled: the submission request is never issued, the
session state (cursor, running flag, action map) is returned untouched, and
exactly one re-render is triggered.  The second conjunct checks that this
`runActionFlow` really is the code path the modules-connect handler takes
for a bound non-reserved key. -/
theorem confirm_cancel :
    (∀ (ask : List Char → List Char) (a : ActionDef) (s : TermState),
       a.confirm = true →
       jsToLower (ask (confirmQuestion a.label)) ≠ cs "y" →
       runActionFlow ask a s = ⟨s, none, 1, false⟩) ∧
    (∀ (ask : List Char → List Char) (s : TermState) key a, s.running = true →
       key ≠ cs "\x03" → key ≠ cs "q" → key ≠ cs "\x1b" → key ≠ cs "\x1b\x1b" →
       key ≠ cs "\x1b[A" → key ≠ cs "\x1b[B" → key ≠ cs "\x1b[5~" → key ≠ cs "\x1b[6~" →
       lookupKey s.keyMap key = some a →
       modulesKey ask s key = runActionFlow ask a s) := by
  constructor
  · intro ask a s hc hy
    simp only [runActionFlow]
    rw [if_pos ⟨hc, hy⟩]
  · intro ask s key a hrun h1 h2 h3 h4 h5 h6 h7 h8 hlk
    rw [modulesKey, if_neg (by simp [hrun]), if_neg (not_or.mpr ⟨h1, h2⟩),
      if_neg (not_or.mpr ⟨h3, h4⟩), if_neg h5, if_neg h6, if_neg h7, if_neg h8, hlk]

/-- Witness for C5: answering `n` to the `Delete` confirmation in a running
session with `d` bound: no submission, state unchanged, one render; and the
`d` keypress indeed routes into that action flow. -/
theorem confirm_cancel_witness :
    runActionFlow askN wConfirmAct wTermAct = ⟨wTermAct, none, 1, false⟩ ∧
    modulesKey askN wTermAct (cs "d") = runActionFlow askN wConfirmAct wTermAct :=
  ⟨confirm_cancel.1 askN wConfirmAct wTermAct (by decide) (by decide),
   confirm_cancel.2 askN wTermAct (cs "d") wConfirmAct (by decide) (by decide) (by decide)
     (by decide) (by decide) (by decide) (by decide) (by decide) (by decide) (by decide)⟩

/-! ## Credential expiry theorems -/

/-- C10 counterexample: the claim says `isJwtExpired` returns true whenever
the payload lacks a numeric `exp` field.  For the JWT `aaa.bbb.ccc` whose
payload decodes to `{"exp":"abc"}` — a truthy, non-numeric `exp` — the
source computes `Date.now() / 1000 > "abc" - 300`, i.e. a comparison
against NaN, which is false: `isJwtExpired` returns `false` and
`requireCredentials` returns the credentials instead of raising. -/
theorem jwt_nonnumeric_exp_cex :
    isJwtExpired cexDecode 1700000000000 cexCreds = false ∧
    requireCredentials (some cexCreds) cexDecode 1700000000000 = .ok cexCreds := by
  exact ⟨rfl, rfl⟩

/-- C10 (amended): `isJwtExpired` returns true when the jwt is empty, when
it does not split into exactly three dot-separated parts, when the payload
fails to decode as base64url JSON, and when the `exp` field is absent or
falsy (including the numeric `0`); but when `exp` is present and truthy yet
coerces to NaN (a non-numeric string or an object), the NaN comparison
makes it return `false`.  `requireCredentials` raises exactly for the
credentials `isJwtExpired` marks expired. -/
theorem jwt_expiry_truth :
    (∀ (d : List Char → Option JsonVal) (now : Int) (c : Credentials),
       c.jwt = [] → isJwtExpired d now c = true) ∧
    (∀ (d : List Char → Option JsonVal) (now : Int) (c : Credentials),
       (splitOnChar '.' c.jwt).length ≠ 3 → isJwtExpired d now c = true) ∧
    (∀ (d : List Char → Option JsonVal) (now : Int) (c : Credentials),
       d ((splitOnChar '.' c.jwt).getD 1 []) = none → isJwtExpired d now c = true) ∧
    (∀ (d : List Char → Option JsonVal) (now : Int) (c : Credentials) payload,
       d ((splitOnChar '.' c.jwt).getD 1 []) = some payload →
       (payloadExp payload = none ∨ payloadExp payload = some none ∨
        (∃ v, payloadExp payload = some (some v) ∧ jsTruthy v = false)) →
       isJwtExpired d now c = true) ∧
    (∀ (d : List Char → Option JsonVal) (now : Int) (c : Credentials) payload v,
       c.jwt ≠ [] → (splitOnChar '.' c.jwt).length = 3 →
       d ((splitOnChar '.' c.jwt).getD 1 []) = some payload →
       payloadExp payload = some (some v) → jsTruthy v = true → jsToNumber v = .nan →
       isJwtExpired d now c = false) ∧
    (∀ (loaded : Option Credentials) (d : List Char → Option JsonVal) (now : Int)
       (c : Credentials), loaded = some c → isJwtExpired d now c = true →
       ∃ msg, requireCredentials loaded d now = .error msg) := by
  refine ⟨?_, ?_, ?_, ?_, ?_, ?_⟩
  · intro d now c h
    simp [isJwtExpired, h]
  · intro d now c h
    simp [isJwtExpired, h]
  · intro d now c h
    have h' : d ((splitOnChar '.' c.jwt)[1]?.getD []) = none := by simpa using h
    simp [isJwtExpired, h']
  · intro d now c payload hdec hexp
    have hdec' : d ((splitOnChar '.' c.jwt)[1]?.getD []) = some payload := by simpa using hdec
    rcases hexp with h | h | ⟨v, hv, htr⟩
    · simp [isJwtExpired, hdec', h]
    · simp [isJwtExpired, hdec', h]
    · simp [isJwtExpired, hdec', hv, htr]
  · intro d now c payload v hne hlen hdec hexp htr hnum
    obtain ⟨x, y, z, hp⟩ := List.length_eq_three.mp hlen
    have hdec' : d y = some payload := by
      rw [hp] at hdec
      simpa using hdec
    simp [isJwtExpired, hne, hp, hdec', hexp, htr, hnum]
  · intro loaded d now c hl he
    subst hl
    exact ⟨cs "Session expired. Run starkbot login to re-authenticate.",
      by simp [requireCredentials, he]⟩

/-- Witness for the amended C10 over the concrete decode oracles: empty
jwt, two-part jwt, undecodable payload, `{}` payload, `{"exp":0}` payload
all expired; the `{"exp":"abc"}` payload not expired; and an empty-jwt
credential makes `requireCredentials` raise. -/
theorem jwt_expiry_truth_witness :
    isJwtExpired cexDecode 0 wCredsEmpty = true ∧
    isJwtExpired cexDecode 0 wCredsTwoParts = true ∧
    isJwtExpired decodeNone 0 cexCreds = true ∧
    isJwtExpired decodeNoExp 0 cexCreds = true ∧
    isJwtExpired decodeZeroExp 0 cexCreds = true ∧
    isJwtExpired cexDecode 1700000000000 cexCreds = false ∧
    (∃ msg, requireCredentials (some wCredsEmpty) cexDecode 0 = .error msg) :=
  ⟨jwt_expiry_truth.1 cexDecode 0 wCredsEmpty rfl,
   jwt_expiry_truth.2.1 cexDecode 0 wCredsTwoParts (by decide),
   jwt_expiry_truth.2.2.1 decodeNone 0 cexCreds rfl,
   jwt_expiry_truth.2.2.2.1 decodeNoExp 0 cexCreds (.jobj []) rfl (Or.inr (Or.inl rfl)),
   jwt_expiry_truth.2.2.2.1 decodeZeroExp 0 cexCreds (.jobj [(cs "exp", .jnum 0)]) rfl
     (Or.inr (Or.inr ⟨.jnum 0, rfl, rfl⟩)),
   jwt_expiry_truth.2.2.2.2.1 cexDecode 1700000000000 cexCreds
     (.jobj [(cs "exp", .jstr (cs "abc"))]) (.jstr (cs "abc"))
     (by decide) (by decide) rfl rfl rfl rfl,
   jwt_expiry_truth.2.2.2.2.2 (some wCredsEmpty) cexDecode 0 wCredsEmpty rfl
     (jwt_expiry_truth.1 cexDecode 0 wCredsEmpty rfl)⟩

end Starkbot
